import Mathlib

/- Verification development for doc.js (schteppe/doc.js, src/doc.js):
   a shallow embedding of the comment-block data model, the tag command
   parsers, and the command-to-entity assembly pipeline, together with
   theorems settling the specification claims about them. -/

namespace DocJs

/-- JS `\s` whitespace class, restricted to the characters that can occur in
a single line of a comment block (no astral whitespace modelled). -/
def isWs (c : Char) : Bool :=
  c == ' ' || c == '\t' || c == '\n' || c == '\r' || c == '\x0b' || c == '\x0c'

/-- JS stringification of a possibly-undefined string value, as it happens
when an `undefined` is used as an object key or concatenated into a string:
`none` (undefined) becomes the string `undefined`. -/
def jsKey (s : Option String) : String := s.getD ("undefined")

/- ---------------------------------------------------------------------
   Commands (doc.js 1044-1751).  Each command stores the payload captured
   by its tag grammar; `Option String` models a JS string-or-undefined
   slot.  The back-pointer to the origin block is not modelled (no claim
   reads it through a command).
   --------------------------------------------------------------------- -/

structure AuthorCommand where
  content : String
  deriving DecidableEq, Repr

structure BriefCommand where
  content : String
  deriving DecidableEq, Repr

structure ClassCommand where
  name : String
  deriving DecidableEq, Repr

structure DescriptionCommand where
  content : String
  deriving DecidableEq, Repr

/-- doc.js 1208-1215: the constructor normalizes the description with
`description = description || ""`, so an undefined (or empty) description
is stored as the empty string. -/
structure EventCommand where
  name : String
  description : String
  deriving DecidableEq, Repr

/-- `new DOCJS.EventCommand(block,name,desc)` with `desc : String | undefined`:
models the `description = description || ""` normalization. -/
def EventCommand.make (name : String) (desc : Option String) : EventCommand :=
  ⟨name, desc.getD ("")⟩

structure ExampleCommand where
  content : String
  deriving DecidableEq, Repr

structure ExtendsCommand where
  className : String
  deriving DecidableEq, Repr

structure FunctionCommand where
  name : String
  description : Option String
  deriving DecidableEq, Repr

structure LibraryCommand where
  name : String
  deriving DecidableEq, Repr

/-- doc.js 1368-1372: `className` can be undefined, because
`MemberofCommand.parse` can construct the command from a match of the
alternation `/(@memberOf)|(@memberof)\s+([^\s]*)$/` whose third group did
not participate. -/
structure MemberofCommand where
  className : Option String
  deriving DecidableEq, Repr

structure MethodCommand where
  name : String
  deriving DecidableEq, Repr

structure PageCommand where
  name : String
  deriving DecidableEq, Repr

structure ParamCommand where
  dataType : String
  name : String
  description : Option String
  deriving DecidableEq, Repr

structure PropertyCommand where
  dataType : String
  name : String
  description : Option String
  deriving DecidableEq, Repr

/-- doc.js 1602-1608: constructor parameters are (block, dataType,
description); the call site in `ReturnCommand.parse` passes a fourth
argument which is silently dropped. -/
structure ReturnCommand where
  dataType : String
  description : Option String
  deriving DecidableEq, Repr

structure SeeCommand where
  text : String
  deriving DecidableEq, Repr

structure TodoCommand where
  content : String
  deriving DecidableEq, Repr

structure VersionCommand where
  content : String
  deriving DecidableEq, Repr

/- ---------------------------------------------------------------------
   Block (doc.js 464-556).  `lines` is the cleaned source already split at
   newlines (`src.split("\n")`); `parsedLines` is the consumed-line set in
   push order; the per-tag collections are filled by the parsers.
   --------------------------------------------------------------------- -/

structure Block where
  filename : String := ""
  lines : List String := []
  lineNumber : Nat := 0
  rawDiff : Nat := 0
  parsedLines : List Nat := []
  author : List AuthorCommand := []
  brief : List BriefCommand := []
  classs : List ClassCommand := []
  desc : List DescriptionCommand := []
  event : List EventCommand := []
  exampleCmds : List ExampleCommand := []
  exts : List ExtendsCommand := []
  func : List FunctionCommand := []
  library : List LibraryCommand := []
  memberof : List MemberofCommand := []
  method : List MethodCommand := []
  page : List PageCommand := []
  param : List ParamCommand := []
  property : List PropertyCommand := []
  ret : List ReturnCommand := []
  see : List SeeCommand := []
  todo : List TodoCommand := []
  version : List VersionCommand := []
  file : List Unit := []
  deriving DecidableEq, Repr

/-- `getNumLines` (doc.js 522-525). -/
def Block.numLines (b : Block) : Nat := b.lines.length

/-- `lineIsParsed` (doc.js 515-517). -/
def Block.lineIsParsed (b : Block) (i : Nat) : Bool := b.parsedLines.contains i

/-- `markLineAsParsed` (doc.js 500-503): push the index unless already
present (so the consumed set only grows and holds no duplicates). -/
def Block.markLineAsParsed (b : Block) (i : Nat) : Block :=
  if b.lineIsParsed i then b else { b with parsedLines := b.parsedLines ++ [i] }

/-- `localToGlobalLineNumber` (doc.js 497-499). -/
def Block.localToGlobalLineNumber (b : Block) (i : Nat) : Nat :=
  i + b.lineNumber + b.rawDiff + 1

/-- `getLine` (doc.js 518-521); out-of-range access gives undefined in JS,
modelled as the empty string (never hit on in-range indices). -/
def Block.getLine (b : Block) (i : Nat) : String := b.lines.getD i ("")

/-- `getUnparsedLines2` (doc.js 535-546): the map linenumber => line over
the not-yet-consumed lines, in ascending line order (JS integer-like object
keys iterate in ascending numeric order). -/
def Block.getUnparsedLines2 (b : Block) (globalLineNumbers : Bool) : List (Nat × String) :=
  (List.range b.numLines).filterMap fun i =>
    if b.lineIsParsed i then none
    else some (if globalLineNumbers then b.localToGlobalLineNumber i else i, b.getLine i)

/- ---------------------------------------------------------------------
   ErrorReport and the global id counters (doc.js 436-439, 565-571,
   575-597).  JS keeps `errorReportIdCounter`, `globalEntityCounter` and
   the per-name map `entityCounter` as module-level mutable state; here
   they are threaded explicitly as a `Counters` value.
   --------------------------------------------------------------------- -/

structure ErrorReport where
  file : String
  lineNumber : Option Nat
  message : String
  id : Nat
  deriving DecidableEq, Repr

structure Counters where
  errorId : Nat
  globalEntity : Nat
  entity : List (String × Nat)
  deriving DecidableEq, Repr

def Counters.fresh : Counters := ⟨0, 0, []⟩

/-- `new DOCJS.ErrorReport(filename,lineNumber,message)` (doc.js 566-571):
`this.id = ++errorReportIdCounter`. -/
def mkErrorReport (c : Counters) (file : String) (ln : Option Nat) (msg : String) :
    ErrorReport × Counters :=
  (⟨file, ln, msg, c.errorId + 1⟩, { c with errorId := c.errorId + 1 })

/-- `DOCJS.Entity` (doc.js 584-597): assigns the type-local id from
`entityCounter[entityName]` and the global id from `++globalEntityCounter`.
Every call site in doc.js invokes `DOCJS.Entity.call(this,block)` WITHOUT
the `entityName` argument, so the key actually used is the string
`undefined` for every entity kind; the argument is kept here so that fact
is visible at each `make` function below.  Returns (type-local id,
global id, updated counters). -/
def entityStep (c : Counters) (entityName : Option String) : Nat × Nat × Counters :=
  let key := jsKey entityName
  match c.entity.lookup key with
  | none =>
      (0, c.globalEntity + 1,
       { c with entity := (key, 0) :: c.entity, globalEntity := c.globalEntity + 1 })
  | some v =>
      (v + 1, c.globalEntity + 1,
       { c with entity := (key, v + 1) :: c.entity, globalEntity := c.globalEntity + 1 })

/- ---------------------------------------------------------------------
   Entities (doc.js 599-807).  Every constructor runs
   `DOCJS.Entity.call(this,block)` (no entityName), then stores its
   commands; the `blocks` field models the `[block]` array each call site
   passes.  The TodoEntity's `setEntity` writes a closure variable that is
   never read back, so the associated entity is not modelled.
   --------------------------------------------------------------------- -/

structure PageEntity where
  id : Nat := 0
  globalId : Nat := 0
  blocks : List Block := []
  pageCommand : PageCommand
  content : String := ""
  deriving DecidableEq, Repr

def PageEntity.make (c : Counters) (blocks : List Block) (pc : PageCommand)
    (content : String) : PageEntity × Counters :=
  let r := entityStep c none
  (⟨r.1, r.2.1, blocks, pc, content⟩, r.2.2)

structure LibraryEntity where
  id : Nat := 0
  globalId : Nat := 0
  blocks : List Block := []
  libraryCommand : LibraryCommand
  versionCommand : Option VersionCommand := none
  briefCommand : Option BriefCommand := none
  descCommand : Option DescriptionCommand := none
  deriving DecidableEq, Repr

def LibraryEntity.make (c : Counters) (blocks : List Block) (lc : LibraryCommand)
    (vc : Option VersionCommand) (bc : Option BriefCommand)
    (dc : Option DescriptionCommand) : LibraryEntity × Counters :=
  let r := entityStep c none
  (⟨r.1, r.2.1, blocks, lc, vc, bc, dc⟩, r.2.2)

structure FunctionEntity where
  id : Nat := 0
  globalId : Nat := 0
  blocks : List Block := []
  functionCommand : FunctionCommand
  params : List ParamCommand := []
  returnCommand : Option ReturnCommand := none
  briefCommand : Option BriefCommand := none
  descCommand : Option DescriptionCommand := none
  exampleCmds : List ExampleCommand := []
  deriving DecidableEq, Repr

def FunctionEntity.make (c : Counters) (blocks : List Block) (fc : FunctionCommand)
    (ps : List ParamCommand) (rc : Option ReturnCommand) (bc : Option BriefCommand)
    (dc : Option DescriptionCommand) (exs : List ExampleCommand) :
    FunctionEntity × Counters :=
  let r := entityStep c none
  (⟨r.1, r.2.1, blocks, fc, ps, rc, bc, dc, exs⟩, r.2.2)

structure MethodEntity where
  id : Nat := 0
  globalId : Nat := 0
  blocks : List Block := []
  methodCommand : MethodCommand
  memberofCommand : MemberofCommand
  params : List ParamCommand := []
  briefCommand : Option BriefCommand := none
  returnCommand : Option ReturnCommand := none
  deriving DecidableEq, Repr

def MethodEntity.make (c : Counters) (blocks : List Block) (mc : MethodCommand)
    (mo : MemberofCommand) (ps : List ParamCommand) (bc : Option BriefCommand)
    (rc : Option ReturnCommand) : MethodEntity × Counters :=
  let r := entityStep c none
  (⟨r.1, r.2.1, blocks, mc, mo, ps, bc, rc⟩, r.2.2)

structure PropertyEntity where
  id : Nat := 0
  globalId : Nat := 0
  blocks : List Block := []
  propertyCommand : PropertyCommand
  memberofCommand : MemberofCommand
  briefCommand : Option BriefCommand := none
  descCommand : Option DescriptionCommand := none
  deriving DecidableEq, Repr

def PropertyEntity.make (c : Counters) (blocks : List Block) (pc : PropertyCommand)
    (mo : MemberofCommand) (bc : Option BriefCommand)
    (dc : Option DescriptionCommand) : PropertyEntity × Counters :=
  let r := entityStep c none
  (⟨r.1, r.2.1, blocks, pc, mo, bc, dc⟩, r.2.2)

structure TodoEntity where
  id : Nat := 0
  globalId : Nat := 0
  blocks : List Block := []
  todoCommand : TodoCommand
  deriving DecidableEq, Repr

def TodoEntity.make (c : Counters) (blocks : List Block) (tc : TodoCommand) :
    TodoEntity × Counters :=
  let r := entityStep c none
  (⟨r.1, r.2.1, blocks, tc⟩, r.2.2)

/-- `DOCJS.ClassEntity` (doc.js 753-789): `methods` and `properties` start
empty and are appended to by `addMethod` / `addProperty` in the assembly
post-pass. -/
structure ClassEntity where
  id : Nat := 0
  globalId : Nat := 0
  blocks : List Block := []
  classCommand : ClassCommand
  params : List ParamCommand := []
  extendsCommand : Option ExtendsCommand := none
  briefCommand : Option BriefCommand := none
  descCommand : Option DescriptionCommand := none
  exampleCmds : List ExampleCommand := []
  methods : List MethodEntity := []
  properties : List PropertyEntity := []
  deriving DecidableEq, Repr

def ClassEntity.make (c : Counters) (blocks : List Block) (cc : ClassCommand)
    (ps : List ParamCommand) (ec : Option ExtendsCommand) (bc : Option BriefCommand)
    (dc : Option DescriptionCommand) (exs : List ExampleCommand) :
    ClassEntity × Counters :=
  let r := entityStep c none
  (⟨r.1, r.2.1, blocks, cc, ps, ec, bc, dc, exs, [], []⟩, r.2.2)

/- ---------------------------------------------------------------------
   Documentation (doc.js 812-871).
   --------------------------------------------------------------------- -/

structure Documentation where
  pages : List PageEntity := []
  classes : List ClassEntity := []
  files : List Unit := []
  functions : List FunctionEntity := []
  library : Option LibraryEntity := none
  todos : List TodoEntity := []
  errors : List ErrorReport := []
  methods : List MethodEntity := []
  properties : List PropertyEntity := []
  deriving DecidableEq, Repr

def Documentation.empty : Documentation := {}

/-- The `name2class` map built in `Documentation.update` (doc.js 828-835):
insertion-order iteration with later classes overwriting earlier ones, so a
lookup returns the LAST class with that name. -/
def name2classOf (classes : List ClassEntity) (name : String) : Option ClassEntity :=
  (classes.filter fun c => c.classCommand.name == name).getLast?

/-- Stable insertion used to model `Array.prototype.sort` with the
`sortbyname` comparator (doc.js 838-845): elements comparing equal keep
their original relative order. -/
def insertByName {α : Type} (key : α → String) (a : α) : List α → List α
  | [] => [a]
  | b :: l => if key b < key a then b :: insertByName key a l else a :: b :: l

/-- Stable sort by name (model of `sort(sortbyname)`). -/
def sortByName {α : Type} (key : α → String) : List α → List α
  | [] => []
  | a :: l => insertByName key a (sortByName key l)

/-- `Documentation.update` (doc.js 824-846): rebuild the name maps (modelled
by `name2classOf` over the insertion-order list, taken before sorting) and
sort pages, classes and functions alphabetically by name. -/
def Documentation.update (doc : Documentation) : Documentation :=
  { doc with
      pages := sortByName (fun p => p.pageCommand.name) doc.pages,
      classes := sortByName (fun c => c.classCommand.name) doc.classes,
      functions := sortByName (fun f => f.functionCommand.name) doc.functions }

/-- `recurseInheritance` (doc.js 858-865), made total with an explicit fuel
bound: the JS function recurses with no cycle guard, so `none` here means
the recursion depth exceeded the given fuel (the JS call has not returned
after that many recursive steps).  `getExtendedClassName()` returns `false`
when there is no Extends command, and the empty string is also falsy in the
`if(!extended)` test. -/
def recurseInheritance (classes : List ClassEntity) :
    Nat → String → List String → Option (List String)
  | 0, _, _ => none
  | fuel + 1, name, nameList =>
    let nameList := nameList ++ [name]
    match name2classOf classes name with
    | none => some nameList
    | some c =>
      match c.extendsCommand with
      | none => some nameList
      | some e =>
        if e.className = "" then some nameList
        else recurseInheritance classes fuel e.className nameList

/-- `getInheritanceList` (doc.js 866-870), fuel-bounded as above. -/
def getInheritanceList (classes : List ClassEntity) (fuel : Nat) (c : ClassEntity) :
    Option (List String) :=
  recurseInheritance classes fuel c.classCommand.name []

/- ---------------------------------------------------------------------
   Entity assembly: `makeEntities` (doc.js 875-1042).  The per-block loop
   body is split into the primary classification (doc.js 888-988), the
   todo scan (990-997) and the residual unparsed-code check (999-1016);
   the loop state (the Documentation under construction, the `lastClass`
   fallback variable and the global counters) is `AState`.
   --------------------------------------------------------------------- -/

structure AState where
  doc : Documentation
  lastClass : Option ClassEntity
  ctr : Counters
  deriving DecidableEq, Repr

/-- `doc.errors.push(new DOCJS.ErrorReport(file,ln,msg))` on the assembly
state. -/
def AState.pushError (s : AState) (file : String) (ln : Option Nat) (msg : String) :
    AState :=
  let ec' := mkErrorReport s.ctr file ln msg
  { s with
      doc := { s.doc with errors := s.doc.errors ++ [ec'.1] },
      ctr := ec'.2 }

/-- Primary block classification (doc.js 888-988), first match wins:
Page, Class, File, Library, Function, Method, Property.  Returns the new
state together with the (possibly mutated) block: the Page branch marks
every remaining line consumed, and the Method/Property branches can push a
synthesized Memberof command onto the block. -/
def classifyStep (s : AState) (b : Block) : AState × Block :=
  if b.page ≠ [] then
    -- Page (doc.js 889-901): join all unconsumed lines, mark them consumed
    let pc := b.page.headD ⟨""⟩
    let lns := b.getUnparsedLines2 false
    let b' := lns.foldl (fun bb p => bb.markLineAsParsed p.1) b
    let content := String.intercalate ("\n") (lns.map Prod.snd)
    let pec := PageEntity.make s.ctr [b'] pc content
    ({ s with
        doc := { s.doc with pages := s.doc.pages ++ [pec.1] },
        ctr := pec.2 }, b')
  else if b.classs ≠ [] then
    -- Class (doc.js 903-930)
    let cc := b.classs.headD ⟨""⟩
    let sn1 : AState × Nat :=
      if b.ret ≠ [] then
        (s.pushError b.filename (some b.lineNumber)
          ("@class blocks may not contain @return"), 1)
      else (s, 0)
    let sn2 : AState × Nat :=
      match b.exts.head? with
      | some e0 =>
        if e0.className = cc.name then
          (sn1.1.pushError b.filename (some b.lineNumber)
            ("A class may not extend itself!"), sn1.2 + 1)
        else sn1
      | none => sn1
    if sn2.2 = 0 then
      let cec := ClassEntity.make sn2.1.ctr [b] cc b.param b.exts.head?
        b.brief.head? b.desc.head? b.exampleCmds
      ({ sn2.1 with
          doc := { sn2.1.doc with classes := sn2.1.doc.classes ++ [cec.1] },
          lastClass := some cec.1,
          ctr := cec.2 }, b)
    else (sn2.1, b)
  else if b.file ≠ [] then
    -- File (doc.js 932): intentionally produces nothing
    (s, b)
  else if b.library ≠ [] then
    -- Library (doc.js 934-941): last one silently replaces any previous
    let lc := b.library.headD ⟨""⟩
    let lec := LibraryEntity.make s.ctr [b] lc b.version.head? b.brief.head? b.desc.head?
    ({ s with
        doc := { s.doc with library := some lec.1 },
        ctr := lec.2 }, b)
  else if b.func ≠ [] then
    -- Function (doc.js 943-951)
    let fc := b.func.headD ⟨"", none⟩
    let fec := FunctionEntity.make s.ctr [b] fc b.param b.ret.head? b.brief.head?
      b.desc.head? b.exampleCmds
    ({ s with
        doc := { s.doc with functions := s.doc.functions ++ [fec.1] },
        ctr := fec.2 }, b)
  else if b.method ≠ [] then
    -- Method (doc.js 953-967): memberof fallback to the last parsed class
    let mc := b.method.headD ⟨""⟩
    let b' :=
      if b.memberof.length = 0 then
        match s.lastClass with
        | some lc => { b with memberof := b.memberof ++ [⟨some lc.classCommand.name⟩] }
        | none => b
      else b
    if b'.memberof.length = 1 then
      let mo := b'.memberof.headD ⟨none⟩
      let mec := MethodEntity.make s.ctr [b'] mc mo b'.param b'.brief.head? b'.ret.head?
      ({ s with
          doc := { s.doc with methods := s.doc.methods ++ [mec.1] },
          ctr := mec.2 }, b')
    else (s, b')
  else if b.property ≠ [] then
    -- Property (doc.js 970-987): same fallback, error on wrong cardinality
    let pc := b.property.headD ⟨"", "", none⟩
    let b' :=
      if b.memberof.length = 0 then
        match s.lastClass with
        | some lc => { b with memberof := b.memberof ++ [⟨some lc.classCommand.name⟩] }
        | none => b
      else b
    if b'.memberof.length ≠ 1 then
      (s.pushError b.filename (some b.lineNumber)
        ("A @property block requires exactly 1 @memberof command, got " ++
         toString b'.memberof.length ++ "."), b')
    else
      let mo := b'.memberof.headD ⟨none⟩
      let pec := PropertyEntity.make s.ctr [b'] pc mo b'.brief.head? b'.desc.head?
      ({ s with
          doc := { s.doc with properties := s.doc.properties ++ [pec.1] },
          ctr := pec.2 }, b')
  else (s, b)

/-- One iteration of the todo scan (doc.js 992-996). -/
def todoStepOne (b : Block) (st : AState) (tc : TodoCommand) : AState :=
  let tec := TodoEntity.make st.ctr [b] tc
  { st with
      doc := { st.doc with todos := st.doc.todos ++ [tec.1] },
      ctr := tec.2 }

/-- Todo scan (doc.js 990-997): one TodoEntity per Todo command.  (The
`todo.setEntity(entity)` call writes a closure variable that is never read
back, so it has no observable effect and is not modelled.) -/
def todoStep (s : AState) (b : Block) : AState :=
  b.todo.foldl (todoStepOne b) s

/-- The message of the aggregated residual-content error (doc.js 1009-1012). -/
def unparsedMessage (unparsed : List (Nat × String)) : String :=
  "There was unparsed code:\n\n" ++
    String.join (unparsed.map fun p => "Line " ++ toString p.1 ++ ": " ++ p.2 ++ "\n")

/-- Residual unparsed-code check (doc.js 999-1016): if the block still has
unconsumed lines, push a single aggregated ErrorReport listing all of them
with their global line numbers. -/
def residualStep (s : AState) (b : Block) : AState :=
  if (b.getUnparsedLines2 true).isEmpty then s
  else s.pushError b.filename (some b.lineNumber) (unparsedMessage (b.getUnparsedLines2 true))

/-- One iteration of the assembly loop (doc.js 885-1017). -/
def processBlock (s : AState) (b : Block) : AState × Block :=
  let sb := classifyStep s b
  (residualStep (todoStep sb.1 sb.2) sb.2, sb.2)

/-- The assembly loop folded over all blocks, starting from an empty
Documentation seeded with the parser-time errors (doc.js 875-885). -/
def assembleState (blocks : List Block) (errors0 : List ErrorReport) (ctr0 : Counters) :
    AState :=
  blocks.foldl (fun st b => (processBlock st b).1)
    ⟨{ Documentation.empty with errors := errors0 }, none, ctr0⟩

/-- Whether a method/property with the given Memberof class name resolves
(through the `name2class` map built from the insertion-order class list) to
the class entity with the given global id.  This is how the post-pass
mutations `c.addMethod(m)` / `c.addProperty(p)` are rendered functionally:
the map lookup returns an entity, and the mutation lands on that entity. -/
def resolvesTo (insertionClasses : List ClassEntity) (cn : Option String) (gid : Nat) :
    Bool :=
  match name2classOf insertionClasses (jsKey cn) with
  | some c0 => c0.globalId == gid
  | none => false

/-- One iteration of the method-attachment loop (doc.js 1022-1029) as far
as the error sink is concerned: a method whose class is not found pushes an
ErrorReport with filename "" and line number 1. -/
def attachMethodErrorsStep (insertionClasses : List ClassEntity)
    (acc : List ErrorReport × Counters) (m : MethodEntity) :
    List ErrorReport × Counters :=
  match name2classOf insertionClasses (jsKey m.memberofCommand.className) with
  | some _ => acc
  | none =>
    let ec' := mkErrorReport acc.2 ("") (some 1)
      ("Could not add method " ++ m.methodCommand.name ++ " to the class " ++
       jsKey m.memberofCommand.className ++ ", could not find that class.")
    (acc.1 ++ [ec'.1], ec'.2)

/-- The errors pushed by the method-attachment loop (doc.js 1022-1029). -/
def attachMethodErrors (insertionClasses : List ClassEntity) (ms : List MethodEntity)
    (c : Counters) : List ErrorReport × Counters :=
  ms.foldl (attachMethodErrorsStep insertionClasses) ([], c)

/-- The errors pushed by the property-attachment loop (doc.js 1030-1039):
filename "" and `p.block.lineNumber`, which is undefined (`p.block` is the
`[block]` array), modelled as `none`. -/
def attachPropertyErrors (insertionClasses : List ClassEntity) (ps : List PropertyEntity)
    (c : Counters) : List ErrorReport × Counters :=
  ps.foldl
    (fun acc p =>
      match name2classOf insertionClasses (jsKey p.memberofCommand.className) with
      | some _ => acc
      | none =>
        let ec' := mkErrorReport acc.2 ("") none
          ("Could not attach property " ++ p.propertyCommand.name ++ " to the class " ++
           jsKey p.memberofCommand.className ++ " because it could not be found.")
        (acc.1 ++ [ec'.1], ec'.2))
    ([], c)

/-- Apply the post-pass attachments to one class entity: it receives every
method/property whose Memberof name resolves to it through the map. -/
def attachTo (insertionClasses : List ClassEntity) (ms : List MethodEntity)
    (ps : List PropertyEntity) (c : ClassEntity) : ClassEntity :=
  { c with
      methods := c.methods ++
        ms.filter (fun m => resolvesTo insertionClasses m.memberofCommand.className c.globalId),
      properties := c.properties ++
        ps.filter (fun p => resolvesTo insertionClasses p.memberofCommand.className c.globalId) }

/-- `makeEntities` (doc.js 875-1042): fold the assembly loop over the
blocks, rebuild the index (`doc.update()`), then attach methods and
properties to their classes, producing "could not find that class" errors
for the ones that do not resolve. -/
def makeEntities (blocks : List Block) (errors0 : List ErrorReport) (ctr0 : Counters) :
    Documentation × Counters :=
  let sF := assembleState blocks errors0 ctr0
  let doc1 := sF.doc.update
  let me := attachMethodErrors sF.doc.classes sF.doc.methods sF.ctr
  let pe := attachPropertyErrors sF.doc.classes sF.doc.properties me.2
  ({ doc1 with
      classes := doc1.classes.map (attachTo sF.doc.classes sF.doc.methods sF.doc.properties),
      errors := doc1.errors ++ me.1 ++ pe.1 }, pe.2)

/- ---------------------------------------------------------------------
   Tag command parsers (selected ones needed by the claims), with the JS
   regexes transcribed as specialised matchers.  ECMAScript semantics
   used: `match` returns the leftmost position at which the whole pattern
   matches; at a position, alternatives are tried left to right and
   quantifiers greedily, with backtracking; a quantified group iteration
   that consumes no characters is rejected once the minimum count is met
   (RepeatMatcher's empty-match rule), leaving the group's capture
   undefined when no iteration survives.
   --------------------------------------------------------------------- -/

/-- Substring test, modelling an unanchored regex literal such as
`line.match(/@author/)`. -/
def hasSubstr : List Char → List Char → Bool
  | [], p => p.isEmpty
  | c :: cs, p => p.isPrefixOf (c :: cs) || hasSubstr cs p

def headIsWs : List Char → Bool
  | [] => false
  | c :: _ => isWs c

/-- `/(@memberOf)|(@memberof)\s+([^\s]*)$/` (doc.js 1384) applied to one
line.  The alternation binds tighter than concatenation, so the pattern is
`(@memberOf)` OR `(@memberof)\s+([^\s]*)$`: the uppercase spelling matches
bare with group 3 left undefined.  Returns `some g3` (the capture of group
3, `none` for undefined) iff the regex matches. -/
def memberofMatch : List Char → Option (Option String)
  | [] => none
  | c :: cs =>
    if ("@memberOf".toList).isPrefixOf (c :: cs) then some none
    else if ("@memberof".toList).isPrefixOf (c :: cs) then
      let rest := (c :: cs).drop 9
      let ws := rest.takeWhile isWs
      let t := rest.dropWhile isWs
      if ws.length ≠ 0 && t.all (fun ch => !(isWs ch)) then some (some (String.mk t))
      else memberofMatch cs
    else memberofMatch cs

/-- `DOCJS.MemberofCommand.parse` (doc.js 1379-1397).  The guard
`result && result.length>=4` is always satisfied on a match (a JS match
result has length 1 + group count = 4), so every match yields a command
with `className = result[3]`, and the line is marked consumed either way.
The fallback `line.match(/@member[oO]f/)` is a substring test. -/
def MemberofCommand.parse (b : Block) (errors : List ErrorReport) (ctr : Counters) :
    List MemberofCommand × Block × List ErrorReport × Counters :=
  (b.getUnparsedLines2 false).foldl
    (fun (acc : List MemberofCommand × Block × List ErrorReport × Counters) jl =>
      let (cmds, bb, errs, c) := acc
      let line := jl.2
      match memberofMatch line.toList with
      | some g3 => (cmds ++ [⟨g3⟩], bb.markLineAsParsed jl.1, errs, c)
      | none =>
        if hasSubstr line.toList ("@memberof".toList) ||
           hasSubstr line.toList ("@memberOf".toList) then
          let ec' := mkErrorReport c b.filename (some (b.localToGlobalLineNumber jl.1))
            ("Line contained @memberof but did not match the command spec \"@memberof className\". The input: " ++ line)
          (cmds, bb, errs ++ [ec'.1], ec'.2)
        else acc)
    ([], b, errors, ctr)

/-- `/@return[s]{0,1}\s+([^\s]*)\s*(.*){0,1}$/` (doc.js 1621) applied to
one line: returns `(group 1, group 2)` of the leftmost match.  Group 2 is
undefined (`none`) when nothing remains after the whitespace following
group 1, because the `(.*){0,1}` iteration would match empty and is
rejected by the empty-match rule. -/
def returnMatch : List Char → Option (String × Option String)
  | [] => none
  | c :: cs =>
    if ("@return".toList).isPrefixOf (c :: cs) then
      let rest := (c :: cs).drop 7
      -- `[s]{0,1}` then `\s+`: take the `s` when whitespace follows it;
      -- with no `s`, whitespace must follow directly
      let rest2 : Option (List Char) :=
        match rest with
        | 's' :: r => if headIsWs r then some r else none
        | r => if headIsWs r then some r else none
      match rest2 with
      | some r =>
        let afterWs := r.dropWhile isWs
        let t1 := afterWs.takeWhile (fun ch => !(isWs ch))
        let after := afterWs.drop t1.length
        let rest3 := after.dropWhile isWs
        let g2 : Option String := if rest3.isEmpty then none else some (String.mk rest3)
        some (String.mk t1, g2)
      | none => returnMatch cs
    else returnMatch cs

/-- `DOCJS.ReturnCommand.parse` (doc.js 1615-1637).  The code reads
`dataType = result[1]`, `name = result[2]`, computes `desc` from the
nonexistent `result[3]` (always undefined) and then calls
`new DOCJS.ReturnCommand(block,dataType,name,desc)` — but the constructor
takes (block, dataType, description), so the stored description is
`result[2]` and the fourth argument is dropped. -/
def ReturnCommand.parse (b : Block) (errors : List ErrorReport) (ctr : Counters) :
    List ReturnCommand × Block × List ErrorReport × Counters :=
  (b.getUnparsedLines2 false).foldl
    (fun (acc : List ReturnCommand × Block × List ErrorReport × Counters) jl =>
      let (cmds, bb, errs, c) := acc
      let line := jl.2
      match returnMatch line.toList with
      | some (g1, g2) => (cmds ++ [⟨g1, g2⟩], bb.markLineAsParsed jl.1, errs, c)
      | none =>
        if hasSubstr line.toList ("@return".toList) then
          let ec' := mkErrorReport c b.filename (some (b.localToGlobalLineNumber jl.1))
            ("Line contained @return but did not match the command spec \"@return dataType [description]\". The input: " ++ line)
          (cmds, bb, errs ++ [ec'.1], ec'.2)
        else acc)
    ([], b, errors, ctr)

/-- Remainders of `cs` after consuming a nonempty whitespace prefix (`\s+`),
longest consumption first (greedy backtracking order). -/
def wsPlusSplits (cs : List Char) : List (List Char) :=
  let m := (cs.takeWhile isWs).length
  (List.range m).map fun k => cs.drop (m - k)

/-- (consumed, remainder) splits for `([^\s]*)`, longest first. -/
def nonspaceStarSplits (cs : List Char) : List (List Char × List Char) :=
  let m := (cs.takeWhile fun ch => !(isWs ch)).length
  (List.range (m + 1)).map fun k => (cs.take (m - k), cs.drop (m - k))

/-- (consumed, remainder) splits for `([^\s]+)`, longest first. -/
def nonspacePlusSplits (cs : List Char) : List (List Char × List Char) :=
  let m := (cs.takeWhile fun ch => !(isWs ch)).length
  (List.range m).map fun k => (cs.take (m - k), cs.drop (m - k))

/-- `/@param\s+([^\s]*)\s+([^\s]+)(\s+(.*)){0,1}$/` (doc.js 1534) tried at
one start position, with the greedy backtracking order made explicit by
enumerating the quantifier splits longest-first.  Returns
(group 1, group 2, group 4); group 4 is undefined when the optional
`(\s+(.*))` group matched no iteration (the line ends after group 2). -/
def paramMatchAt (cs : List Char) : Option (String × String × Option String) :=
  if ("@param".toList).isPrefixOf cs then
    (wsPlusSplits (cs.drop 6)).findSome? fun r1 =>
      (nonspaceStarSplits r1).findSome? fun t1r =>
        (wsPlusSplits t1r.2).findSome? fun r3 =>
          (nonspacePlusSplits r3).findSome? fun t2r =>
            match t2r.2 with
            | [] => some (String.mk t1r.1, String.mk t2r.1, none)
            | ch :: _ =>
              if isWs ch then
                some (String.mk t1r.1, String.mk t2r.1,
                      some (String.mk (t2r.2.dropWhile isWs)))
              else none
  else none

/-- Leftmost-position search for the `@param` pattern. -/
def paramMatch : List Char → Option (String × String × Option String)
  | [] => none
  | c :: cs =>
    match paramMatchAt (c :: cs) with
    | some r => some r
    | none => paramMatch cs

/-- `DOCJS.ParamCommand.parse` (doc.js 1528-1550): on a match,
`desc = result[4]` only when it is a string different from "", so an
omitted (undefined) or empty trailing description stays undefined. -/
def ParamCommand.parse (b : Block) (errors : List ErrorReport) (ctr : Counters) :
    List ParamCommand × Block × List ErrorReport × Counters :=
  (b.getUnparsedLines2 false).foldl
    (fun (acc : List ParamCommand × Block × List ErrorReport × Counters) jl =>
      let (cmds, bb, errs, c) := acc
      let line := jl.2
      match paramMatch line.toList with
      | some (g1, g2, g4) =>
        let descV : Option String :=
          match g4 with
          | some d => if d ≠ "" then some d else none
          | none => none
        (cmds ++ [⟨g1, g2, descV⟩], bb.markLineAsParsed jl.1, errs, c)
      | none =>
        if hasSubstr line.toList ("@param".toList) then
          let ec' := mkErrorReport c b.filename (some (b.localToGlobalLineNumber jl.1))
            ("Line contained @param but did not match the command spec \"@param dataType paramName [description]\". The input: " ++ line)
          (cmds, bb, errs ++ [ec'.1], ec'.2)
        else acc)
    ([], b, errors, ctr)

/-- `/@event\s+([^\s]*)(\s+(.*)){0,1}$/` (doc.js 1228) applied to one
line: returns `(group 1, group 2)` of the leftmost match; group 2 is the
WHOLE optional `(\s+(.*))` group (leading whitespace included), undefined
when the line ends after group 1. -/
def eventMatch : List Char → Option (String × Option String)
  | [] => none
  | c :: cs =>
    if ("@event".toList).isPrefixOf (c :: cs) then
      let rest0 := (c :: cs).drop 6
      if headIsWs rest0 then
        let afterWs := rest0.dropWhile isWs
        let t1 := afterWs.takeWhile (fun ch => !(isWs ch))
        let rest := afterWs.drop t1.length
        let g2 : Option String := if rest.isEmpty then none else some (String.mk rest)
        some (String.mk t1, g2)
      else eventMatch cs
    else eventMatch cs

/-- `DOCJS.EventCommand.parse` (doc.js 1222-1243): on a match the code
takes `name = result[1]` and `desc = result[2]` (the whole optional group,
possibly undefined) and builds `new DOCJS.EventCommand(block,name,desc)`,
whose constructor normalizes the description with `description || ""`. -/
def EventCommand.parse (b : Block) (errors : List ErrorReport) (ctr : Counters) :
    List EventCommand × Block × List ErrorReport × Counters :=
  (b.getUnparsedLines2 false).foldl
    (fun (acc : List EventCommand × Block × List ErrorReport × Counters) jl =>
      let (cmds, bb, errs, c) := acc
      let line := jl.2
      match eventMatch line.toList with
      | some (g1, g2) => (cmds ++ [EventCommand.make g1 g2], bb.markLineAsParsed jl.1, errs, c)
      | none =>
        if hasSubstr line.toList ("@event".toList) then
          let ec' := mkErrorReport c b.filename (some (b.localToGlobalLineNumber jl.1))
            ("Line contained @event but did not match the command spec \"@event typeName [description]\". The input: " ++ line)
          (cmds, bb, errs ++ [ec'.1], ec'.2)
        else acc)
    ([], b, errors, ctr)

/- ---------------------------------------------------------------------
   loadBlocks (doc.js 1813-1836).
   --------------------------------------------------------------------- -/

/-- The outcome a file loader reports for one requested url. -/
inductive LoadResult where
  | ok (content : String)
  | err (e : ErrorReport)
  deriving DecidableEq, Repr

/-- `loadBlocks` (doc.js 1813-1836), with `parseBlocks` abstracted as the
parameter `parseFn content url errors ↦ (blocks, errors')` (block
extraction from raw text is outside the claims' scope) and the per-url
load callbacks modelled as completing in request order.  On a successful
load the source executes `blocks = parseBlocks(content,url,errors)` — an
ASSIGNMENT to the accumulator, not an append — while a failed load pushes
its error and leaves `blocks` unchanged; after the last callback the
result is handed to the continuation (returned here). -/
def loadBlocks
    (parseFn : String → String → List ErrorReport → List Block × List ErrorReport)
    (files : List (String × LoadResult)) : List Block × List ErrorReport :=
  files.foldl
    (fun (st : List Block × List ErrorReport) f =>
      match f.2 with
      | .ok content => parseFn content f.1 st.2
      | .err e => (st.1, st.2 ++ [e]))
    ([], [])

/- ---------------------------------------------------------------------
   Small derived notions and concrete fixtures used by the theorems.
   --------------------------------------------------------------------- -/

/-- Number of accumulated errors carrying exactly the given message. -/
def countMsg (msg : String) (l : List ErrorReport) : Nat :=
  (l.filter fun e => e.message == msg).length

/-- The observable signature of a Method entity for comparisons that must
ignore the construction-time ids: its Method command and the class name it
will be attached under. -/
def methodSig (m : MethodEntity) : MethodCommand × Option String :=
  (m.methodCommand, m.memberofCommand.className)

/-- The observable signature of a Property entity, mirroring `methodSig`. -/
def propertySig (p : PropertyEntity) : PropertyCommand × Option String :=
  (p.propertyCommand, p.memberofCommand.className)

/-- A minimal stand-in for `parseBlocks` when exercising the `loadBlocks`
wiring: each file contributes exactly one block carrying its url. -/
def oneBlockPerFile (content : String) (url : String) (errors : List ErrorReport) :
    List Block × List ErrorReport :=
  ([{ filename := url, lines := [content], lineNumber := 1 }], errors)

/-- Index fixture: class C extends D. -/
def cycC : ClassEntity := { classCommand := ⟨"C"⟩, extendsCommand := some ⟨"D"⟩, globalId := 1 }

/-- Index fixture: class D extends C (closing the cycle). -/
def cycD : ClassEntity := { classCommand := ⟨"D"⟩, extendsCommand := some ⟨"C"⟩, globalId := 2 }

/-- A block whose cleaned text is the single line `@return string`. -/
def retOnlyBlock : Block := { filename := "a.js", lines := ["@return string"], lineNumber := 4 }

/-- A block whose cleaned text is the single line `@param string name`. -/
def paramOnlyBlock : Block := { filename := "a.js", lines := ["@param string name"], lineNumber := 4 }

/-- A block whose cleaned text is the single line `@event foo`. -/
def eventOnlyBlock : Block := { filename := "a.js", lines := ["@event foo"], lineNumber := 4 }

/-- A block whose cleaned text is the single line `@memberof Foo`. -/
def memberofLowerBlock : Block := { filename := "a.js", lines := ["@memberof Foo"], lineNumber := 4 }

/-- A block whose cleaned text is the single line `@memberOf Foo`. -/
def memberofUpperBlock : Block := { filename := "a.js", lines := ["@memberOf Foo"], lineNumber := 4 }

/-- A parsed `@class Baz` block (no @return, no @extends). -/
def classBazBlock : Block := { filename := "a.js", lineNumber := 10, classs := [⟨"Baz"⟩] }

/-- A parsed `@method bar` block with no @memberof. -/
def methodBarBlock : Block := { filename := "a.js", lineNumber := 20, method := [⟨"bar"⟩] }

/-- A parsed block containing both `@class Baz` and a `@return` command. -/
def classReturnBlock : Block :=
  { filename := "a.js", lineNumber := 10, classs := [⟨"Baz"⟩], ret := [⟨"string", none⟩] }

/-- A parsed `@method m` block naming a class that does not exist. -/
def orphanMethodBlock : Block :=
  { filename := "a.js", lineNumber := 41, method := [⟨"m"⟩], memberof := [⟨some "Nope"⟩] }

/-- A Method entity whose Memberof names a class absent from any index. -/
def orphanMethodEntity : MethodEntity :=
  { methodCommand := ⟨"m"⟩, memberofCommand := ⟨some "Nope"⟩ }

/-- A parsed block with three cleaned-text lines of which only the middle
one was consumed by a parser. -/
def residualBlock : Block :=
  { filename := "a.js", lines := ["x", "y", "z"], lineNumber := 5, parsedLines := [1] }

/-- The Class entity the class branch of the assembler builds from a block
in state `s` (doc.js 921-927), named so theorems can refer to it. -/
def classEntityOf (s : AState) (b : Block) : ClassEntity :=
  (ClassEntity.make s.ctr [b] (b.classs.headD ⟨""⟩) b.param b.exts.head? b.brief.head?
    b.desc.head? b.exampleCmds).1

/-- The Method entity the method branch builds from a no-memberof block in
a state whose last class is named `cn` (doc.js 956-965). -/
def methodEntityOf (s : AState) (b : Block) (cn : String) : MethodEntity :=
  (MethodEntity.make s.ctr [{ b with memberof := [⟨some cn⟩] }] (b.method.headD ⟨""⟩)
    ⟨some cn⟩ b.param b.brief.head? b.ret.head?).1

/-- The report produced when `orphanMethodEntity` fails to attach starting
from fresh counters. -/
def orphanAttachError : ErrorReport :=
  ⟨"", some 1, "Could not add method m to the class Nope, could not find that class.", 1⟩

/-- An assembly state reached after accepting one class (`Prev`), used as a
concrete nontrivial starting state by the witnesses. -/
def prevState : AState :=
  ⟨{ Documentation.empty with
       classes := [{ classCommand := ⟨"Prev"⟩, globalId := 1 }] },
   some { classCommand := ⟨"Prev"⟩, globalId := 1 },
   ⟨0, 1, [("undefined", 0)]⟩⟩

/- =====================================================================
   Theorems.
   ===================================================================== -/

/-- On the cyclic two-class index, one unfolding of the recursion from "C"
lands on "D" and vice versa, so no amount of fuel reaches a base case. -/
theorem recurseInheritance_cyc (fuel : Nat) : ∀ acc : List String,
    recurseInheritance [cycC, cycD] fuel ("C") acc = none ∧
    recurseInheritance [cycC, cycD] fuel ("D") acc = none := by
  induction fuel with
  | zero => exact fun acc => ⟨rfl, rfl⟩
  | succ n ih =>
    intro acc
    refine ⟨?_, ?_⟩
    · show recurseInheritance [cycC, cycD] n ("D") (acc ++ ["C"]) = none
      exact (ih _).2
    · show recurseInheritance [cycC, cycD] n ("C") (acc ++ ["D"]) = none
      exact (ih _).1

/-- C2: on a documentation index where the Extends names form a cycle
(class C extends D and class D extends C, both present), the recursion
behind `getInheritanceList` never returns: for every fuel bound the
fuel-indexed model of `recurseInheritance` exhausts its fuel, i.e. the
unbounded JS recursion does not terminate within any bounded number of
steps, contrary to the claim. -/
theorem getInheritanceList_cycle_diverges :
    ∀ fuel : Nat, getInheritanceList [cycC, cycD] fuel cycC = none :=
  fun fuel => (recurseInheritance_cyc fuel []).1

/-- C3: `loadBlocks` does NOT hand the concatenation of all files' blocks
to its callback: on two successfully loading files whose parses produce
one block each, the callback receives only the second file's block,
because the source assigns `blocks = parseBlocks(content,url,errors)`
instead of appending. -/
theorem loadBlocks_drops_earlier_blocks :
    ((loadBlocks oneBlockPerFile [("a.js", .ok ("A")), ("b.js", .ok ("B"))]).1.map
        fun b => b.filename) = ["b.js"] ∧
    ((loadBlocks oneBlockPerFile [("a.js", .ok ("A")), ("b.js", .ok ("B"))]).1.map
        fun b => b.filename) ≠ ["a.js", "b.js"] :=
  ⟨rfl, by decide⟩

/-- C6 counterexample: the tag grammar of `@event name [text]` has an
optional trailing free-text, yet parsing the well-formed line `@event foo`
(text omitted) yields an Event command whose description is the EMPTY
STRING (the constructor runs `description = description || ""`), not an
absent value — refuting the claim's universal statement over every tag
with optional trailing free-text. -/
theorem event_empty_text_stored_as_empty_string :
    (EventCommand.parse eventOnlyBlock [] Counters.fresh).1 =
      [{ name := "foo", description := "" }] ∧
    (EventCommand.parse eventOnlyBlock [] Counters.fresh).2.1.lineIsParsed 0 = true :=
  ⟨rfl, rfl⟩

/-- C6 amended: parsing a well-formed line that omits the optional trailing
free-text yields an absent (undefined) text for `@return` and `@param` —
in particular `@return string` yields a Return command with no description
rather than description "" — but the `@event` tag instead stores the empty
string, because its command constructor normalizes with
`description || ""`. -/
theorem optional_trailing_text_absence :
    (ReturnCommand.parse retOnlyBlock [] Counters.fresh).1 =
      [{ dataType := "string", description := none }] ∧
    (ReturnCommand.parse retOnlyBlock [] Counters.fresh).2.1.lineIsParsed 0 = true ∧
    (ParamCommand.parse paramOnlyBlock [] Counters.fresh).1 =
      [{ dataType := "string", name := "name", description := none }] ∧
    (EventCommand.parse eventOnlyBlock [] Counters.fresh).1 =
      [{ name := "foo", description := "" }] :=
  ⟨rfl, rfl, rfl, rfl⟩

/-- C7: `@memberof ClassName` parses to one Memberof command carrying the
class name and consumes the line, but the alternate spelling
`@memberOf ClassName` — equally claimed to be accepted as the same tag —
produces a Memberof command whose class name is UNDEFINED (while still
consuming the line): in `/(@memberOf)|(@memberof)\s+([^\s]*)$/` the
alternation makes `(@memberOf)` a complete alternative, so group 3 never
participates in an uppercase match. -/
theorem memberOf_spelling_loses_classname :
    (MemberofCommand.parse memberofLowerBlock [] Counters.fresh).1 =
      [{ className := some "Foo" }] ∧
    (MemberofCommand.parse memberofLowerBlock [] Counters.fresh).2.1.lineIsParsed 0 = true ∧
    (MemberofCommand.parse memberofUpperBlock [] Counters.fresh).1 =
      [{ className := none }] ∧
    (MemberofCommand.parse memberofUpperBlock [] Counters.fresh).2.1.lineIsParsed 0 = true :=
  ⟨rfl, rfl, rfl, rfl⟩

/-- C8: the type-local id counter is NOT separate per entity kind: every
constructor invokes `DOCJS.Entity.call(this,block)` without the
`entityName` argument, so all kinds share the single counter stored under
the key `undefined`.  Constructing a Class entity first and then a Method
entity (from fresh counters) gives the Method type-local id 1, not 0 —
while the global id does increment once per entity as claimed. -/
theorem entity_type_local_counter_shared :
    (ClassEntity.make Counters.fresh [] ⟨"A"⟩ [] none none none []).1.id = 0 ∧
    (ClassEntity.make Counters.fresh [] ⟨"A"⟩ [] none none none []).1.globalId = 1 ∧
    (MethodEntity.make (ClassEntity.make Counters.fresh [] ⟨"A"⟩ [] none none none []).2
        [] ⟨"m"⟩ ⟨some "A"⟩ [] none none).1.id = 1 ∧
    (MethodEntity.make (ClassEntity.make Counters.fresh [] ⟨"A"⟩ [] none none none []).2
        [] ⟨"m"⟩ ⟨some "A"⟩ [] none none).1.globalId = 2 :=
  ⟨rfl, rfl, rfl, rfl⟩

/-- Pushing an error changes only the error list and the counters. -/
theorem pushError_preserves (s : AState) (f : String) (ln : Option Nat) (m : String) :
    (s.pushError f ln m).doc.classes = s.doc.classes ∧
    (s.pushError f ln m).doc.methods = s.doc.methods ∧
    (s.pushError f ln m).lastClass = s.lastClass :=
  ⟨rfl, rfl, rfl⟩

/-- The error list after a push. -/
theorem pushError_errors (s : AState) (f : String) (ln : Option Nat) (m : String) :
    (s.pushError f ln m).doc.errors =
      s.doc.errors ++ [⟨f, ln, m, s.ctr.errorId + 1⟩] :=
  rfl

/-- The todo scan changes only the todo list and the counters. -/
theorem todoStep_preserves (s : AState) (b : Block) :
    (todoStep s b).doc.classes = s.doc.classes ∧
    (todoStep s b).doc.methods = s.doc.methods ∧
    (todoStep s b).doc.errors = s.doc.errors ∧
    (todoStep s b).lastClass = s.lastClass := by
  unfold todoStep
  generalize b.todo = l
  induction l generalizing s with
  | nil => exact ⟨rfl, rfl, rfl, rfl⟩
  | cons t l ih =>
    rw [List.foldl_cons]
    exact ih (todoStepOne b s t)

/-- The residual check changes only the error list and the counters. -/
theorem residualStep_preserves (s : AState) (b : Block) :
    (residualStep s b).doc.classes = s.doc.classes ∧
    (residualStep s b).doc.methods = s.doc.methods ∧
    (residualStep s b).lastClass = s.lastClass := by
  unfold residualStep
  split
  · exact ⟨rfl, rfl, rfl⟩
  · exact ⟨rfl, rfl, rfl⟩

/-- `processBlock` decomposed into its three stages. -/
theorem processBlock_eq (s : AState) (b : Block) :
    processBlock s b =
      (residualStep (todoStep (classifyStep s b).1 (classifyStep s b).2)
        (classifyStep s b).2, (classifyStep s b).2) :=
  rfl

/-- The classification stage changes only errors/counters on a class block
that also carries a Return command, and produces exactly one class/return
conflict report. -/
theorem classifyStep_class_return (s : AState) (b : Block)
    (hp : b.page = []) (hc : b.classs ≠ []) (hr : b.ret ≠ []) :
    (classifyStep s b).1.doc.classes = s.doc.classes ∧
    (classifyStep s b).1.lastClass = s.lastClass ∧
    (classifyStep s b).1.doc.methods = s.doc.methods ∧
    countMsg ("@class blocks may not contain @return") (classifyStep s b).1.doc.errors =
      countMsg ("@class blocks may not contain @return") s.doc.errors + 1 := by
  unfold classifyStep
  rcases hE : b.exts.head? with - | e0
  · simp only [hp, hr, hE, ne_eq, not_true_eq_false, if_false, ite_not]
    simp [hc, countMsg, List.filter_append, AState.pushError, mkErrorReport]
  · by_cases hname : e0.className = (b.classs.headD ⟨""⟩).name <;>
      simp only [List.headD_eq_head?] at hname <;>
      simp only [hp, hr, hE, ne_eq, not_true_eq_false, if_false, ite_not] <;>
      simp [hc, hname, countMsg, List.filter_append, AState.pushError, mkErrorReport]

/-- C5: a block carrying both a Class command and a Return command adds no
Class entity (the class list is unchanged through the whole per-block
step, so the block's class is rejected) and the classification produces
exactly one structural ErrorReport with the class/return conflict message. -/
theorem class_return_conflict (s : AState) (b : Block)
    (hp : b.page = []) (hc : b.classs ≠ []) (hr : b.ret ≠ []) :
    (processBlock s b).1.doc.classes = s.doc.classes ∧
    countMsg ("@class blocks may not contain @return") (classifyStep s b).1.doc.errors =
      countMsg ("@class blocks may not contain @return") s.doc.errors + 1 := by
  obtain ⟨h1, _, _, h4⟩ := classifyStep_class_return s b hp hc hr
  refine ⟨?_, h4⟩
  rw [processBlock_eq]
  rw [(residualStep_preserves _ _).1, (todoStep_preserves _ _).1, h1]

/-- C5 witness: at the concrete class-plus-return block, starting from the
concrete nontrivial state `prevState`. -/
theorem class_return_conflict_witness :
    (processBlock prevState classReturnBlock).1.doc.classes = prevState.doc.classes ∧
    countMsg ("@class blocks may not contain @return")
        (classifyStep prevState classReturnBlock).1.doc.errors =
      countMsg ("@class blocks may not contain @return") prevState.doc.errors + 1 :=
  class_return_conflict prevState classReturnBlock rfl (by decide) (by decide)

/-- The todo scan leaves the property list unchanged. -/
theorem todoStep_properties (s : AState) (b : Block) :
    (todoStep s b).doc.properties = s.doc.properties := by
  unfold todoStep
  generalize b.todo = l
  induction l generalizing s with
  | nil => rfl
  | cons t l ih =>
    rw [List.foldl_cons]
    exact ih (todoStepOne b s t)

/-- The residual check leaves the property list unchanged. -/
theorem residualStep_properties (s : AState) (b : Block) :
    (residualStep s b).doc.properties = s.doc.properties := by
  unfold residualStep
  split
  · rfl
  · rfl

/-- The classification stage of a REJECTED class block (one with a Return
command, or one whose Extends names its own class) leaves classes,
lastClass and methods untouched and returns the block unchanged. -/
theorem classifyStep_class_rejected (s : AState) (b : Block)
    (hp : b.page = []) (hc : b.classs ≠ [])
    (hrej : b.ret ≠ [] ∨
      ∃ e0, b.exts.head? = some e0 ∧ e0.className = (b.classs.headD ⟨""⟩).name) :
    (classifyStep s b).1.doc.classes = s.doc.classes ∧
    (classifyStep s b).1.lastClass = s.lastClass ∧
    (classifyStep s b).1.doc.methods = s.doc.methods ∧
    (classifyStep s b).1.doc.properties = s.doc.properties ∧
    (classifyStep s b).2 = b := by
  unfold classifyStep
  rcases hE : b.exts.head? with - | e0
  · rcases hrej with hr | ⟨e0, he, -⟩
    · simp only [hp, hr, hE, ne_eq, not_true_eq_false, if_false, ite_not]
      simp [hc, AState.pushError]
    · rw [hE] at he; cases he
  · by_cases hname : e0.className = (b.classs.headD ⟨""⟩).name
    · have hname' := hname
      simp only [List.headD_eq_head?] at hname'
      rcases hrej with hr | -
      · simp only [hp, hr, hE, ne_eq, not_true_eq_false, if_false, ite_not]
        simp [hc, hname', AState.pushError]
      · simp only [hp, hE, ne_eq, ite_not]
        by_cases hr : b.ret = [] <;>
          simp [hc, hr, hname', AState.pushError]
    · have hname' := hname
      simp only [List.headD_eq_head?] at hname'
      rcases hrej with hr | ⟨e1, he, hn1⟩
      · simp only [hp, hr, hE, ne_eq, not_true_eq_false, if_false, ite_not]
        simp [hc, hname', AState.pushError]
      · rw [hE] at he
        cases he
        exact absurd hn1 hname

/-- The method branch appends a method whose signature depends only on the
block and the `lastClass` component of the state. -/
theorem classifyStep_method_sig (s₁ s₂ : AState) (bm : Block)
    (hlast : s₁.lastClass = s₂.lastClass)
    (hmp : bm.page = []) (hmc : bm.classs = []) (hmf : bm.file = [])
    (hml : bm.library = []) (hmfn : bm.func = []) (hmm : bm.method ≠ [])
    (hmo : bm.memberof = []) :
    (classifyStep s₁ bm).1.doc.methods.map methodSig =
      s₁.doc.methods.map methodSig ++
        ((classifyStep s₂ bm).1.doc.methods.map methodSig).drop
          (s₂.doc.methods.length) ∧
    (classifyStep s₂ bm).1.doc.methods.map methodSig =
      s₂.doc.methods.map methodSig ++
        ((classifyStep s₂ bm).1.doc.methods.map methodSig).drop
          (s₂.doc.methods.length) := by
  unfold classifyStep
  rcases hL : s₂.lastClass with - | lc
  · rw [hlast, hL]
    simp [hmp, hmc, hmf, hml, hmfn, hmm, hmo]
  · rw [hlast, hL]
    simp [hmp, hmc, hmf, hml, hmfn, hmm, hmo, methodSig, MethodEntity.make]

/-- The property branch appends a property whose signature depends only on
the block and the `lastClass` component of the state (or, with no last
class, raises an error and appends nothing). -/
theorem classifyStep_property_sig (s₁ s₂ : AState) (bp : Block)
    (hlast : s₁.lastClass = s₂.lastClass)
    (hpp : bp.page = []) (hpc : bp.classs = []) (hpf : bp.file = [])
    (hpl : bp.library = []) (hpfn : bp.func = []) (hpm : bp.method = [])
    (hpr : bp.property ≠ []) (hpo : bp.memberof = []) :
    (classifyStep s₁ bp).1.doc.properties.map propertySig =
      s₁.doc.properties.map propertySig ++
        ((classifyStep s₂ bp).1.doc.properties.map propertySig).drop
          (s₂.doc.properties.length) ∧
    (classifyStep s₂ bp).1.doc.properties.map propertySig =
      s₂.doc.properties.map propertySig ++
        ((classifyStep s₂ bp).1.doc.properties.map propertySig).drop
          (s₂.doc.properties.length) := by
  unfold classifyStep
  rcases hL : s₂.lastClass with - | lc
  · rw [hlast, hL]
    simp [hpp, hpc, hpf, hpl, hpfn, hpm, hpr, hpo, AState.pushError]
  · rw [hlast, hL]
    simp [hpp, hpc, hpf, hpl, hpfn, hpm, hpr, hpo, propertySig, PropertyEntity.make]

/-- C10: when a Class block is rejected (class/return conflict or
self-extension), the `lastClass` fallback state, the class list and the
method list are all left unchanged by that block's step, and a subsequent
@method block with no @memberof yields exactly the same method signatures
(method name and attachment class name) as if the rejected block had never
been processed. -/
theorem rejected_class_frame (s : AState) (b : Block)
    (hp : b.page = []) (hc : b.classs ≠ [])
    (hrej : b.ret ≠ [] ∨
      ∃ e0, b.exts.head? = some e0 ∧ e0.className = (b.classs.headD ⟨""⟩).name) :
    (processBlock s b).1.lastClass = s.lastClass ∧
    (processBlock s b).1.doc.classes = s.doc.classes ∧
    (processBlock s b).1.doc.methods = s.doc.methods ∧
    (processBlock s b).1.doc.properties = s.doc.properties ∧
    (∀ bm : Block, bm.page = [] → bm.classs = [] → bm.file = [] → bm.library = [] →
      bm.func = [] → bm.method ≠ [] → bm.memberof = [] →
      (processBlock (processBlock s b).1 bm).1.doc.methods.map methodSig =
        (processBlock s bm).1.doc.methods.map methodSig) ∧
    (∀ bp : Block, bp.page = [] → bp.classs = [] → bp.file = [] → bp.library = [] →
      bp.func = [] → bp.method = [] → bp.property ≠ [] → bp.memberof = [] →
      (processBlock (processBlock s b).1 bp).1.doc.properties.map propertySig =
        (processBlock s bp).1.doc.properties.map propertySig) := by
  obtain ⟨h1, h2, h3, h3p, -⟩ := classifyStep_class_rejected s b hp hc hrej
  have hL : (processBlock s b).1.lastClass = s.lastClass := by
    rw [processBlock_eq]
    rw [(residualStep_preserves _ _).2.2, (todoStep_preserves _ _).2.2.2, h2]
  have hM : (processBlock s b).1.doc.methods = s.doc.methods := by
    rw [processBlock_eq]
    rw [(residualStep_preserves _ _).2.1, (todoStep_preserves _ _).2.1, h3]
  have hP : (processBlock s b).1.doc.properties = s.doc.properties := by
    rw [processBlock_eq, residualStep_properties, todoStep_properties, h3p]
  refine ⟨hL, ?_, hM, hP, ?_, ?_⟩
  · rw [processBlock_eq]
    rw [(residualStep_preserves _ _).1, (todoStep_preserves _ _).1, h1]
  · intro bm hmp hmc hmf hml hmfn hmm hmo
    have hsig := classifyStep_method_sig (processBlock s b).1 s bm
      (by rw [hL]) hmp hmc hmf hml hmfn hmm hmo
    have e1 : (processBlock (processBlock s b).1 bm).1.doc.methods =
        (classifyStep (processBlock s b).1 bm).1.doc.methods := by
      rw [processBlock_eq]
      rw [(residualStep_preserves _ _).2.1, (todoStep_preserves _ _).2.1]
    have e2 : (processBlock s bm).1.doc.methods =
        (classifyStep s bm).1.doc.methods := by
      rw [processBlock_eq]
      rw [(residualStep_preserves _ _).2.1, (todoStep_preserves _ _).2.1]
    rw [e1, e2, hsig.1, hsig.2, hM]
    rw [show s.doc.methods.length = (List.map methodSig s.doc.methods).length from
      (List.length_map _ _).symm]
    rw [List.drop_left]
  · intro bp hpp hpc hpf hpl hpfn hpm hpr hpo
    have hsig := classifyStep_property_sig (processBlock s b).1 s bp
      (by rw [hL]) hpp hpc hpf hpl hpfn hpm hpr hpo
    have e1 : (processBlock (processBlock s b).1 bp).1.doc.properties =
        (classifyStep (processBlock s b).1 bp).1.doc.properties := by
      rw [processBlock_eq, residualStep_properties, todoStep_properties]
    have e2 : (processBlock s bp).1.doc.properties =
        (classifyStep s bp).1.doc.properties := by
      rw [processBlock_eq, residualStep_properties, todoStep_properties]
    rw [e1, e2, hsig.1, hsig.2, hP]
    rw [show s.doc.properties.length = (List.map propertySig s.doc.properties).length from
      (List.length_map _ _).symm]
    rw [List.drop_left]

/-- C10 witness: the rejected class block `classReturnBlock` followed by
the no-memberof `methodBarBlock`, starting from `prevState` (whose last
accepted class is `Prev`). -/
theorem rejected_class_frame_witness :
    (processBlock prevState classReturnBlock).1.lastClass = prevState.lastClass ∧
    (processBlock (processBlock prevState classReturnBlock).1 methodBarBlock).1.doc.methods.map
        methodSig =
      (processBlock prevState methodBarBlock).1.doc.methods.map methodSig :=
  ⟨(rejected_class_frame prevState classReturnBlock rfl (by decide)
      (Or.inl (by decide))).1,
   (rejected_class_frame prevState classReturnBlock rfl (by decide)
      (Or.inl (by decide))).2.2.2.2.1 methodBarBlock rfl rfl rfl rfl rfl (by decide) rfl⟩

/-- Every error produced by folding the method-attachment step either was
already in the accumulator or has the constant shape (filename "", line 1)
with a sequence id freshly drawn past the accumulator's counter. -/
theorem attachMethodErrorsStep_fold (cls : List ClassEntity) :
    ∀ (ms : List MethodEntity) (acc : List ErrorReport × Counters) (e : ErrorReport),
      e ∈ (ms.foldl (attachMethodErrorsStep cls) acc).1 →
      e ∈ acc.1 ∨ (e.file = "" ∧ e.lineNumber = some 1 ∧ acc.2.errorId < e.id) := by
  intro ms
  induction ms with
  | nil => exact fun acc e he => Or.inl he
  | cons m ms ih =>
    intro acc e he
    rw [List.foldl_cons] at he
    have hstep : acc.2.errorId ≤ (attachMethodErrorsStep cls acc m).2.errorId := by
      unfold attachMethodErrorsStep
      split
      · exact le_refl _
      · exact Nat.le_succ _
    rcases ih _ e he with h | h
    · unfold attachMethodErrorsStep at h
      split at h
      · exact Or.inl h
      · rcases List.mem_append.mp h with h1 | h1
        · exact Or.inl h1
        · rw [List.mem_singleton] at h1
          subst h1
          exact Or.inr ⟨rfl, rfl, Nat.lt_succ_self _⟩
    · exact Or.inr ⟨h.1, h.2.1, lt_of_le_of_lt hstep h.2.2⟩

/-- C9 amended: every ErrorReport is stamped with a fresh sequence id (here:
strictly beyond the error counter current when the attachment pass began),
but the "could not find that class" report produced when a Method entity's
named class is absent carries the CONSTANT filename "" and line number 1,
not the method's originating filename and line number. -/
theorem attach_method_error_shape (cls : List ClassEntity) (ms : List MethodEntity)
    (c : Counters) (e : ErrorReport) (he : e ∈ (attachMethodErrors cls ms c).1) :
    e.file = "" ∧ e.lineNumber = some 1 ∧ c.errorId < e.id := by
  rcases attachMethodErrorsStep_fold cls ms ([], c) e he with h | h
  · cases h
  · exact h

/-- C9 amended witness: the orphan method against the empty index. -/
theorem attach_method_error_shape_witness :
    orphanAttachError.file = "" ∧ orphanAttachError.lineNumber = some 1 ∧
    Counters.fresh.errorId < orphanAttachError.id :=
  attach_method_error_shape [] [orphanMethodEntity] Counters.fresh orphanAttachError
    (by decide)

/-- The residual keys are the global line numbers of the unconsumed lines. -/
theorem unparsedKeys_eq (b : Block) :
    (b.getUnparsedLines2 true).map Prod.fst =
      (List.range b.numLines).filterMap
        (fun i => if b.lineIsParsed i then none else some (b.localToGlobalLineNumber i)) := by
  unfold Block.getUnparsedLines2
  rw [List.map_filterMap]
  congr 1
  funext i
  cases hb : b.lineIsParsed i <;> simp [hb]

/-- A global line number is listed among the residual keys exactly when its
line was never marked consumed. -/
theorem mem_unparsedKeys (b : Block) (i : Nat) (hi : i < b.numLines) :
    (b.localToGlobalLineNumber i ∈ (b.getUnparsedLines2 true).map Prod.fst) ↔
      b.lineIsParsed i = false := by
  rw [unparsedKeys_eq, List.mem_filterMap]
  constructor
  · rintro ⟨a, -, hfa⟩
    cases hb : b.lineIsParsed a
    · simp only [hb, Bool.false_eq_true, if_false, Option.some.injEq] at hfa
      have ha : a = i := by
        unfold Block.localToGlobalLineNumber at hfa
        omega
      exact ha ▸ hb
    · simp [hb] at hfa
  · intro hp
    exact ⟨i, List.mem_range.mpr hi, by simp [hp]⟩

/-- No global line number appears twice among the residual keys. -/
theorem unparsedKeys_nodup (b : Block) :
    ((b.getUnparsedLines2 true).map Prod.fst).Nodup := by
  rw [unparsedKeys_eq]
  refine List.Nodup.filterMap ?_ (List.nodup_range _)
  intro a a' n hn hn'
  cases hb : b.lineIsParsed a <;> simp [hb] at hn
  cases hb' : b.lineIsParsed a' <;> simp [hb'] at hn'
  unfold Block.localToGlobalLineNumber at hn hn'
  omega

/-- C1: per-block residual accounting.  After a block's tag parsing and
assembly (the classification stage, whose output block carries all
consumed-line marks including the Page-content join), the residual pass
appends AT MOST ONE aggregated residual-content ErrorReport — exactly one
when some line is unconsumed, none otherwise — and that report's line list
covers precisely the unconsumed lines: every cleaned-text line is either
marked consumed or listed (no line is both unconsumed and unreported, and
no consumed line is reported), and no line number is listed twice. -/
theorem block_residual_accounting (s : AState) (b : Block) :
    ((processBlock s b).1.doc.errors =
      (todoStep (classifyStep s b).1 (classifyStep s b).2).doc.errors ++
        (if ((classifyStep s b).2.getUnparsedLines2 true).isEmpty then ([] : List ErrorReport)
         else [⟨(classifyStep s b).2.filename, some (classifyStep s b).2.lineNumber,
               unparsedMessage ((classifyStep s b).2.getUnparsedLines2 true),
               (todoStep (classifyStep s b).1 (classifyStep s b).2).ctr.errorId + 1⟩])) ∧
    (∀ i, i < (classifyStep s b).2.numLines →
      ((classifyStep s b).2.lineIsParsed i = true ↔
        (classifyStep s b).2.localToGlobalLineNumber i ∉
          ((classifyStep s b).2.getUnparsedLines2 true).map Prod.fst)) ∧
    (((classifyStep s b).2.getUnparsedLines2 true).map Prod.fst).Nodup := by
  refine ⟨?_, ?_, unparsedKeys_nodup _⟩
  · rw [processBlock_eq]
    show (residualStep _ _).doc.errors = _
    unfold residualStep
    split
    · rename_i h
      simp [h]
    · rw [pushError_errors]
  · intro i hi
    rw [mem_unparsedKeys _ i hi]
    cases hb : (classifyStep s b).2.lineIsParsed i <;> simp [hb]

/-- C1 witness: the partition statement applied to line 0 of the concrete
partially-consumed block `residualBlock`. -/
theorem block_residual_accounting_witness :
    (classifyStep prevState residualBlock).2.lineIsParsed 0 = true ↔
      (classifyStep prevState residualBlock).2.localToGlobalLineNumber 0 ∉
        ((classifyStep prevState residualBlock).2.getUnparsedLines2 true).map Prod.fst :=
  (block_residual_accounting prevState residualBlock).2.1 0 (by decide)

/-- Membership is preserved by the stable insertion. -/
theorem mem_insertByName {α : Type} (key : α → String) (a x : α) :
    ∀ l : List α, x ∈ insertByName key a l ↔ x = a ∨ x ∈ l := by
  intro l
  induction l with
  | nil => simp [insertByName]
  | cons b l ih =>
    unfold insertByName
    split
    · rw [List.mem_cons, ih, List.mem_cons]
      tauto
    · simp

/-- Sorting is a permutation as far as membership is concerned. -/
theorem mem_sortByName {α : Type} (key : α → String) (x : α) :
    ∀ l : List α, x ∈ sortByName key l ↔ x ∈ l := by
  intro l
  induction l with
  | nil => simp [sortByName]
  | cons a l ih =>
    unfold sortByName
    rw [mem_insertByName]
    simp [ih]

/-- Looking up the name of the class appended last returns exactly that
class (last-defined wins in the `name2class` map). -/
theorem name2classOf_append_self (A : List ClassEntity) (ce : ClassEntity) :
    name2classOf (A ++ [ce]) ce.classCommand.name = some ce := by
  unfold name2classOf
  rw [List.filter_append]
  have h : List.filter (fun c => c.classCommand.name == ce.classCommand.name) [ce] = [ce] := by
    simp
  rw [h, List.getLast?_concat]

/-- The classification stage on a SUCCESSFUL class block (no Return
command, no self-extension): the class entity is appended, `lastClass` is
set to it, and the block is returned unchanged. -/
theorem classifyStep_class_ok (s : AState) (b : Block)
    (hp : b.page = []) (hc : b.classs ≠ []) (hr : b.ret = [])
    (he : b.exts.head?.all (fun e0 => e0.className != (b.classs.headD ⟨""⟩).name) = true) :
    classifyStep s b =
      ({ s with
          doc := { s.doc with classes := s.doc.classes ++ [classEntityOf s b] },
          lastClass := some (classEntityOf s b),
          ctr := (ClassEntity.make s.ctr [b] (b.classs.headD ⟨""⟩) b.param b.exts.head?
            b.brief.head? b.desc.head? b.exampleCmds).2 }, b) := by
  unfold classifyStep classEntityOf
  rcases hE : b.exts.head? with - | e0
  · simp [hp, hc, hr, hE]
  · rw [hE] at he
    have he' : ¬ e0.className = (b.classs.headD ⟨""⟩).name := by
      simpa using he
    simp only [List.headD_eq_head?] at he'
    simp [hp, hc, hr, hE, he']

/-- `processBlock` on a successful class block: component view. -/
theorem processBlock_class_ok (s : AState) (b : Block)
    (hp : b.page = []) (hc : b.classs ≠ []) (hr : b.ret = [])
    (he : b.exts.head?.all (fun e0 => e0.className != (b.classs.headD ⟨""⟩).name) = true) :
    (processBlock s b).1.doc.classes = s.doc.classes ++ [classEntityOf s b] ∧
    (processBlock s b).1.lastClass = some (classEntityOf s b) ∧
    (processBlock s b).1.doc.methods = s.doc.methods := by
  have h := classifyStep_class_ok s b hp hc hr he
  refine ⟨?_, ?_, ?_⟩
  · rw [processBlock_eq, (residualStep_preserves _ _).1, (todoStep_preserves _ _).1, h]
  · rw [processBlock_eq, (residualStep_preserves _ _).2.2, (todoStep_preserves _ _).2.2.2, h]
  · rw [processBlock_eq, (residualStep_preserves _ _).2.1, (todoStep_preserves _ _).2.1, h]

/-- The classification stage on a no-memberof method block when a last
class exists: the synthesized Memberof command makes the cardinality
exactly one, so the Method entity is appended with that class name. -/
theorem classifyStep_method_some (s : AState) (bm : Block) (lc : ClassEntity)
    (hmp : bm.page = []) (hmc : bm.classs = []) (hmf : bm.file = []) (hml : bm.library = [])
    (hmfn : bm.func = []) (hmm : bm.method ≠ []) (hmo : bm.memberof = [])
    (hlast : s.lastClass = some lc) :
    classifyStep s bm =
      ({ s with
          doc := { s.doc with methods := s.doc.methods ++
            [methodEntityOf s bm lc.classCommand.name] },
          ctr := (MethodEntity.make s.ctr
            [{ bm with memberof := [⟨some lc.classCommand.name⟩] }]
            (bm.method.headD ⟨""⟩) ⟨some lc.classCommand.name⟩ bm.param bm.brief.head?
            bm.ret.head?).2 }, { bm with memberof := [⟨some lc.classCommand.name⟩] }) := by
  unfold classifyStep methodEntityOf
  simp [hmp, hmc, hmf, hml, hmfn, hmm, hmo, hlast]

/-- `processBlock` on such a method block: component view. -/
theorem processBlock_method_some (s : AState) (bm : Block) (lc : ClassEntity)
    (hmp : bm.page = []) (hmc : bm.classs = []) (hmf : bm.file = []) (hml : bm.library = [])
    (hmfn : bm.func = []) (hmm : bm.method ≠ []) (hmo : bm.memberof = [])
    (hlast : s.lastClass = some lc) :
    (processBlock s bm).1.doc.methods =
      s.doc.methods ++ [methodEntityOf s bm lc.classCommand.name] ∧
    (processBlock s bm).1.doc.classes = s.doc.classes := by
  have h := classifyStep_method_some s bm lc hmp hmc hmf hml hmfn hmm hmo hlast
  refine ⟨?_, ?_⟩
  · rw [processBlock_eq, (residualStep_preserves _ _).2.1, (todoStep_preserves _ _).2.1, h]
  · rw [processBlock_eq, (residualStep_preserves _ _).1, (todoStep_preserves _ _).1, h]

/-- Folding the assembly over `pre ++ [bc, bm]` is folding over `pre` and
then stepping twice. -/
theorem assembleState_append2 (pre : List Block) (bc bm : Block)
    (errors0 : List ErrorReport) (ctr0 : Counters) :
    assembleState (pre ++ [bc, bm]) errors0 ctr0 =
      (processBlock (processBlock (assembleState pre errors0 ctr0) bc).1 bm).1 := by
  unfold assembleState
  rw [List.foldl_append]
  rfl

/-- The final documentation's method list is the assembled one (the
post-pass touches only classes and errors). -/
theorem makeEntities_methods (blocks : List Block) (errors0 : List ErrorReport)
    (ctr0 : Counters) :
    (makeEntities blocks errors0 ctr0).1.methods =
      (assembleState blocks errors0 ctr0).doc.methods :=
  rfl

/-- The final documentation's class list: the assembled classes, sorted,
each receiving the methods/properties that resolve to it. -/
theorem makeEntities_classes (blocks : List Block) (errors0 : List ErrorReport)
    (ctr0 : Counters) :
    (makeEntities blocks errors0 ctr0).1.classes =
      (sortByName (fun c => c.classCommand.name)
          (assembleState blocks errors0 ctr0).doc.classes).map
        (attachTo (assembleState blocks errors0 ctr0).doc.classes
          (assembleState blocks errors0 ctr0).doc.methods
          (assembleState blocks errors0 ctr0).doc.properties) :=
  rfl

/-- C4: a block with a @method command and no @memberof, immediately
following (in source order) a successfully parsed @class block, yields a
Method entity whose class name is that class's name, and the post-pass
attaches that method to that class entity — for ANY preceding block
sequence, initial error sink and counters. -/
theorem method_fallback_attaches (pre : List Block) (errors0 : List ErrorReport)
    (ctr0 : Counters) (bc bm : Block)
    (hp : bc.page = []) (hc : bc.classs ≠ []) (hr : bc.ret = [])
    (he : bc.exts.head?.all (fun e0 => e0.className != (bc.classs.headD ⟨""⟩).name) = true)
    (hmp : bm.page = []) (hmc : bm.classs = []) (hmf : bm.file = []) (hml : bm.library = [])
    (hmfn : bm.func = []) (hmm : bm.method ≠ []) (hmo : bm.memberof = []) :
    (∃ m ∈ (makeEntities (pre ++ [bc, bm]) errors0 ctr0).1.methods,
       m.methodCommand = bm.method.headD ⟨""⟩ ∧
       m.memberofCommand.className = some (bc.classs.headD ⟨""⟩).name) ∧
    (∃ c ∈ (makeEntities (pre ++ [bc, bm]) errors0 ctr0).1.classes,
       c.classCommand = bc.classs.headD ⟨""⟩ ∧
       ∃ m ∈ c.methods,
         m.methodCommand = bm.method.headD ⟨""⟩ ∧
         m.memberofCommand.className = some (bc.classs.headD ⟨""⟩).name) := by
  obtain ⟨hbc1, hbc2, hbc3⟩ :=
    processBlock_class_ok (assembleState pre errors0 ctr0) bc hp hc hr he
  obtain ⟨hbm1, hbm2⟩ :=
    processBlock_method_some (processBlock (assembleState pre errors0 ctr0) bc).1 bm
      (classEntityOf (assembleState pre errors0 ctr0) bc) hmp hmc hmf hml hmfn hmm hmo hbc2
  have hM : (assembleState (pre ++ [bc, bm]) errors0 ctr0).doc.methods =
      (assembleState pre errors0 ctr0).doc.methods ++
        [methodEntityOf (processBlock (assembleState pre errors0 ctr0) bc).1 bm
          (classEntityOf (assembleState pre errors0 ctr0) bc).classCommand.name] := by
    rw [assembleState_append2, hbm1, hbc3]
  have hC : (assembleState (pre ++ [bc, bm]) errors0 ctr0).doc.classes =
      (assembleState pre errors0 ctr0).doc.classes ++
        [classEntityOf (assembleState pre errors0 ctr0) bc] := by
    rw [assembleState_append2, hbm2, hbc1]
  have hmem : methodEntityOf (processBlock (assembleState pre errors0 ctr0) bc).1 bm
      (classEntityOf (assembleState pre errors0 ctr0) bc).classCommand.name ∈
      (assembleState (pre ++ [bc, bm]) errors0 ctr0).doc.methods := by
    rw [hM]
    exact List.mem_append_right _ (List.mem_singleton_self _)
  constructor
  · refine ⟨methodEntityOf (processBlock (assembleState pre errors0 ctr0) bc).1 bm
      (classEntityOf (assembleState pre errors0 ctr0) bc).classCommand.name, ?_, rfl, rfl⟩
    rw [makeEntities_methods]
    exact hmem
  · have hcemem : classEntityOf (assembleState pre errors0 ctr0) bc ∈
        (assembleState (pre ++ [bc, bm]) errors0 ctr0).doc.classes := by
      rw [hC]
      exact List.mem_append_right _ (List.mem_singleton_self _)
    refine ⟨attachTo (assembleState (pre ++ [bc, bm]) errors0 ctr0).doc.classes
        (assembleState (pre ++ [bc, bm]) errors0 ctr0).doc.methods
        (assembleState (pre ++ [bc, bm]) errors0 ctr0).doc.properties
        (classEntityOf (assembleState pre errors0 ctr0) bc), ?_, rfl, ?_⟩
    · rw [makeEntities_classes]
      exact List.mem_map_of_mem _ ((mem_sortByName _ _ _).mpr hcemem)
    · refine ⟨methodEntityOf (processBlock (assembleState pre errors0 ctr0) bc).1 bm
        (classEntityOf (assembleState pre errors0 ctr0) bc).classCommand.name,
        ?_, rfl, rfl⟩
      show _ ∈ _ ++ List.filter _ _
      refine List.mem_append_right _ (List.mem_filter.mpr ⟨hmem, ?_⟩)
      unfold resolvesTo
      show (match name2classOf (assembleState (pre ++ [bc, bm]) errors0 ctr0).doc.classes
          (jsKey (some (classEntityOf (assembleState pre errors0 ctr0) bc).classCommand.name))
          with
        | some c0 => c0.globalId ==
            (classEntityOf (assembleState pre errors0 ctr0) bc).globalId
        | none => false) = true

      rw [show jsKey (some (classEntityOf (assembleState pre errors0 ctr0)
          bc).classCommand.name) =
          (classEntityOf (assembleState pre errors0 ctr0) bc).classCommand.name from rfl]
      rw [hC, name2classOf_append_self]
      simp

/-- C4 witness: `@class Baz` immediately followed by `@method bar`, with an
empty prefix and fresh state. -/
theorem method_fallback_attaches_witness :
    (∃ m ∈ (makeEntities ([] ++ [classBazBlock, methodBarBlock]) [] Counters.fresh).1.methods,
       m.methodCommand = methodBarBlock.method.headD ⟨""⟩ ∧
       m.memberofCommand.className = some (classBazBlock.classs.headD ⟨""⟩).name) ∧
    (∃ c ∈ (makeEntities ([] ++ [classBazBlock, methodBarBlock]) [] Counters.fresh).1.classes,
       c.classCommand = classBazBlock.classs.headD ⟨""⟩ ∧
       ∃ m ∈ c.methods,
         m.methodCommand = methodBarBlock.method.headD ⟨""⟩ ∧
         m.memberofCommand.className = some (classBazBlock.classs.headD ⟨""⟩).name) := by
  have h := method_fallback_attaches [] [] Counters.fresh classBazBlock methodBarBlock
    rfl (by decide) rfl (by decide) rfl rfl rfl rfl rfl (by decide) rfl
  exact ⟨h.1, h.2⟩

/-- C9 counterexample: assembling a single `@method m` block from file
"a.js" (line 41) whose `@memberof Nope` names no class produces the
"could not find that class" report with filename "" and line number 1 —
not the method's originating filename and line number. -/
theorem method_attach_error_loses_origin :
    ((makeEntities [orphanMethodBlock] [] Counters.fresh).1.errors.map
        fun e => (e.file, e.lineNumber, e.id)) = [("", some 1, 1)] ∧
    orphanMethodBlock.filename = "a.js" ∧
    orphanMethodBlock.lineNumber = 41 :=
  ⟨rfl, rfl, rfl⟩

end DocJs
